import Mathlib

/-!
Verification of the FlexLib2 HDF5 utility layer (`hdf5.cpp` / `hdf5.hpp`)
and its numeric buffer companion (`numeric.hpp`).

The development shallowly embeds the C++ code:

* the strided buffer classes `Array`, `Matrix`, `Cube`, `Tesseract` of
  `numeric.hpp` become lists / index functions over `Nat`;
* the `HDF5File` ownership registry becomes an explicit state record with a
  step function per registry-mutating operation;
* `HDF5Dataset` and attribute I/O become functions over a dataset record whose
  `flat` field is the on-disk element sequence in the storage engine's
  linearization order (the engine itself is an external collaborator; its
  region-selection semantics — rectangular offset+count selections over a
  row-major last-axis-fastest linearization, identifiers `≤ 0` and statuses
  `< 0` denoting failure — follow the capability interface the spec assigns
  to it in §6);
* exceptions become `Except String` values carrying the exact message string
  that the corresponding `throw HDF5Exception(...)` site uses.

Machine integers (`size_t`, `hsize_t`, `hid_t`, `herr_t`) are modelled as
`Nat` / `Int`; none of the verified operations can overflow them on the
inputs considered.
-/

namespace numeric

/-- `Array<T>::resize` (`numeric.hpp` lines 45–61).  The element store is the
flat list; `calloc`/`bzero` zero-fill, `realloc` keeps the common prefix.
A still-unallocated array (`val == NULL`) is the empty list, for which the
`calloc` branch likewise produces `n` zero elements. -/
def resize (a : List Int) (n : Nat) : List Int :=
  if a.length = n then a
  else if n > a.length then a ++ List.replicate (n - a.length) 0
  else a.take n

/-- `Array<T>::operator[]` store (`numeric.hpp` line 68). -/
def aset (a : List Int) (i : Nat) (v : Int) : List Int :=
  a.set i v

/-- `Array<T>::operator[]` load (`numeric.hpp` line 67). -/
def aget (a : List Int) (i : Nat) : Int :=
  a.getD i 0

/-- Rank-1 `Array<T>::operator[]` uses the coordinate itself as the linear
offset into `val`. -/
def arrayIndex (x : Nat) : Nat := x

/-- `Matrix<T>::index` (`numeric.hpp` line 113): `dims[0]*y+x`. -/
def matrixIndex (d0 x y : Nat) : Nat := d0 * y + x

/-- `Cube<T>::index` (`numeric.hpp` line 174):
`dims[0]*dims[1]*z+y*dims[0]+x`. -/
def cubeIndex (d0 d1 x y z : Nat) : Nat := d0 * d1 * z + y * d0 + x

/-- `Tesseract<T>::index` (`numeric.hpp` lines 241–243):
`x1+x2*dims[0]+x3*dims[0]*dims[1]+x4*dims[0]*dims[1]*dims[2]`. -/
def tessIndex (d0 d1 d2 x1 x2 x3 x4 : Nat) : Nat :=
  x1 + x2 * d0 + x3 * d0 * d1 + x4 * d0 * d1 * d2

/-- Modelled from the spec: the claimed coordinate-to-offset map
`offset = Σ coord[i] * Π(extent[j] for j<i)` (first axis fastest), written
recursively: `c0 + e0 * (c1 + e1 * (...))`. -/
def specIndex : List Nat → List Nat → Nat
  | c :: cs, e :: es => c + e * specIndex cs es
  | _, _ => 0

/-- `numeric::Cube<double>` as used by `readCube`/`writeCube`: three extents
and the flat element store addressed through `Cube<T>::index`. -/
structure Cube where
  d0 : Nat
  d1 : Nat
  d2 : Nat
  val : Nat → Int

/-- `Cube<T>::operator()` (`numeric.hpp` line 221): `val[index(i,j,k)]`. -/
def Cube.cell (c : Cube) (x y z : Nat) : Int :=
  c.val (cubeIndex c.d0 c.d1 x y z)

end numeric

namespace hdf5

open numeric

/-! ### Exception messages

Each constant is the literal message of the corresponding
`throw HDF5Exception(...)` site in `hdf5.cpp`.  The spec's §7 taxonomy maps
"Dataset closed" to `ClosedObject`, "Cannot read cube from not-2d dataset" to
`RankMismatch`, "Empty filename" to `EmptyArgument`, and the remaining
engine-status messages to `EngineFailure`/`StorageError`. -/

def msgEmptyFilename : String := "Empty filename"

def msgOpenFile : String := "Error opening HDF5 file"

def msgOpenGroup : String := "Error opening group"

def msgDatasetClosed : String := "Dataset closed"

def msgGetSpace : String := "Error getting dataspace"

def msgSelectHyperslab : String := "Error selecting hyperslab"

def msgTransfer : String := "Error reading from HDF5 file"

def msgNotCube : String := "Cannot read cube from not-2d dataset"

def msgIterate : String := "Error iterating in HDF5 object"

/-- `true` iff the computation did not throw. -/
def isOkE {α : Type} (e : Except String α) : Bool :=
  match e with
  | Except.ok _ => true
  | Except.error _ => false

/-! ### File and registry (`HDF5File`)

Live handles are identified by stable natural-number keys; `hid k` is the
storage-engine identifier currently held by handle `k` (`HDF5Object::_id`),
`objects` is `HDF5File::_objects`, `root` is `_rootGroup` and `fid` the file
identifier.  `nextKey` generates a fresh key per constructed handle (each
`new HDF5Group/HDF5Dataset` is a distinct object). -/

@[ext]
structure FileSt where
  fid : Int
  objects : List Nat
  root : Option Nat
  hid : Nat → Int
  nextKey : Nat

/-- `HDF5File::removeObject` (`hdf5.cpp` lines 111–120): the root group is
never removed; otherwise the first matching entry is erased, and removing an
absent object changes nothing. -/
def removeObject (root : Option Nat) (objs : List Nat) (o : Nat) : List Nat :=
  if some o = root then objs else objs.erase o

/-- `HDF5File::addObject` (`hdf5.cpp` lines 122–125): unconditional append. -/
def addObject (objs : List Nat) (o : Nat) : List Nat :=
  objs ++ [o]

/-- `delete obj` on a registered handle: `HDF5Object::~HDF5Object`
(`hdf5.cpp` lines 225–229) runs the subclass `close()` — which sets `_id`
to `0` after releasing any positive engine identifier — and then
`_file->removeObject(this)`. -/
def deleteObject (s : FileSt) (o : Nat) : FileSt :=
  ⟨s.fid, removeObject s.root s.objects o, s.root,
    fun h => if h = o then 0 else s.hid h, s.nextKey⟩

/-- `HDF5File::close` (`hdf5.cpp` lines 85–97): iterate over a defensive copy
of `_objects` deleting every entry, clear the registry, null the root
reference, release the file identifier (if still positive) and zero it. -/
def closeFile (s : FileSt) : FileSt :=
  let t := s.objects.foldl deleteObject s
  ⟨0, [], none, t.hid, t.nextKey⟩

/-- `HDF5Object::isClosed` (`hdf5.cpp` lines 231–233) for the handle with
key `k`: `_id <= 0`. -/
def isClosedKey (s : FileSt) (k : Nat) : Bool :=
  s.hid k ≤ 0

/-- `HDF5File::init` (`hdf5.cpp` lines 60–79).  The engine outcomes are
passed in: `openId` is what `H5Fopen` would return, `createId` what
`H5Fcreate` would return, and `rootGid` what `H5Gopen` on `"/"` would
return.  An existing file is opened, an absent one created; a *negative*
file identifier raises; then the root group is opened eagerly, registering
itself (key `0`) through the `HDF5Object` base constructor. -/
def initFile (filename : List Char) (fileExists : Bool)
    (openId createId rootGid : Int) : Except String FileSt :=
  if filename.length = 0 then Except.error msgEmptyFilename
  else
    let fid := if fileExists then openId else createId
    if fid < 0 then Except.error msgOpenFile
    else if rootGid < 0 then Except.error msgOpenGroup
    else Except.ok ⟨fid, [0], some 0, fun k => if k = 0 then rootGid else 0, 1⟩

/-- Registry-mutating operations available after construction:
`openObj gid` is the `HDF5Object(HDF5File*)` base constructor run for a new
child handle (`hdf5.cpp` lines 217–223, reached from `group`, `dataset`,
`createGroup`, `createDataset`), which registers the handle and then stores
the engine identifier `gid`; `remove k` is the destruction of child `k`
(`close()` plus `removeObject`).  A child constructor that throws after
registering unregisters again through the base destructor, a net no-op on
the registry. -/
inductive FOp where
  | openObj : Int → FOp
  | remove : Nat → FOp

/-- One registry step. -/
def applyOp (s : FileSt) : FOp → FileSt
  | FOp.openObj gid =>
      ⟨s.fid, addObject s.objects s.nextKey, s.root,
        fun k => if k = s.nextKey then gid else s.hid k, s.nextKey + 1⟩
  | FOp.remove k => deleteObject s k

/-! ### Dataset I/O (`HDF5Dataset`) -/

/-- `HDF5Dataset`: engine identifier `_id`, cached rank `d_rank` and extents
`d_dims`, and the on-disk contents `flat` (element `q` of the engine's
row-major, last-axis-fastest linearization of the dataset). -/
structure HDF5Dataset where
  did : Int
  d_rank : Nat
  d_dims : List Nat
  flat : Nat → Int

/-- `HDF5Object::isClosed` specialized to a dataset handle: `_id <= 0`. -/
def isClosedDS (ds : HDF5Dataset) : Bool :=
  ds.did ≤ 0

/-- Engine linearization: row-major (C-order, last axis fastest) offset of
`coords` inside extents `exts`. -/
def rowMajor (exts coords : List Nat) : Nat :=
  (List.zip exts coords).foldl (fun acc p => acc * p.1 + p.2) 0

/-- Decompose the position `p` of a row-major buffer with extents `cnt` into
its coordinate tuple (inverse of `rowMajor`). -/
def cCoords : List Nat → Nat → List Nat
  | [], _ => []
  | _ :: rest, p => p / rest.prod :: cCoords rest (p % rest.prod)

/-- Hyperslab validity: `offset[i] + count[i] ≤ extent[i]` in each
dimension. -/
def inBounds (exts off cnt : List Nat) : Bool :=
  (List.zip off (List.zip cnt exts)).all fun t => t.1 + t.2.1 ≤ t.2.2

/-- Static helper `hdf5_read` (`hdf5.cpp` lines 605–679).  `H5Dget_space`
fails on a non-positive dataset identifier.  With an offset, a hyperslab of
`n` elements at `offset` is selected in the file (rank and bounds checked by
`H5Sselect_hyperslab`) and the full `n`-extent memory space receives the
transfer, so memory position `p` holds the file element at coordinates
`offset + cCoords n p`.  Without an offset the whole file space is
transferred into the whole memory space, which requires equal element
counts. -/
def hdf5_read (ds : HDF5Dataset) (dims : Nat) (n : List Nat)
    (offset? : Option (List Nat)) : Except String (Nat → Int) :=
  if ds.did ≤ 0 then Except.error msgGetSpace
  else
    match offset? with
    | none =>
        if n.prod = ds.d_dims.prod then Except.ok (fun p => ds.flat p)
        else Except.error msgTransfer
    | some off =>
        if dims = ds.d_dims.length ∧ off.length = dims ∧ n.length = dims
            ∧ inBounds ds.d_dims off n then
          Except.ok (fun p =>
            ds.flat (rowMajor ds.d_dims (List.zipWith (fun a b => a + b) off (cCoords n p))))
        else Except.error msgSelectHyperslab

/-- Static helper `hdf5_write` (`hdf5.cpp` lines 684–757), which every call
site uses without an offset: the whole memory buffer replaces the whole file
space (equal element counts required).  The `dims` argument sizes the
scratch arrays. -/
def hdf5_write (ds : HDF5Dataset) (buf : Nat → Int) (dims : Nat)
    (n : List Nat) : Except String HDF5Dataset :=
  if ds.did ≤ 0 then Except.error msgGetSpace
  else if n.prod = ds.d_dims.prod then
    Except.ok ⟨ds.did, ds.d_rank, ds.d_dims,
      fun q => if q < n.prod then buf q else ds.flat q⟩
  else Except.error msgTransfer

/-- `HDF5Dataset::read_2d` (`hdf5.cpp` lines 761–770): closed check, then a
single-element read with count `{1,1}` at offset `{y,x}` — the coordinates
are deliberately swapped. -/
def read_2d (ds : HDF5Dataset) (x y : Nat) : Except String Int :=
  if isClosedDS ds then Except.error msgDatasetClosed
  else (hdf5_read ds 2 [1, 1] (some [y, x])).map fun buf => buf 0

/-- `HDF5Dataset::operator()` (`hdf5.cpp` lines 772–774): delegates to
`read_2d`. -/
def callOp (ds : HDF5Dataset) (x y : Nat) : Except String Int :=
  read_2d ds x y

/-- `HDF5Dataset::read_1d` (`hdf5.cpp` lines 776–780). -/
def read_1d (ds : HDF5Dataset) (n : Nat) : Except String (Nat → Int) :=
  if isClosedDS ds then Except.error msgDatasetClosed
  else hdf5_read ds 1 [n] none

/-- `HDF5Dataset::read(double*, size_t, const size_t*)`
(`hdf5.cpp` lines 782–785). -/
def readN (ds : HDF5Dataset) (n : Nat) (dims : List Nat) :
    Except String (Nat → Int) :=
  if isClosedDS ds then Except.error msgDatasetClosed
  else hdf5_read ds n dims none

/-- `HDF5Dataset::read(double**)` (`hdf5.cpp` lines 787–795): allocates a
buffer of `dims(0)` elements and fills it through `read_1d`, returning the
buffer and its size. -/
def readAll (ds : HDF5Dataset) : Except String ((Nat → Int) × Nat) :=
  if isClosedDS ds then Except.error msgDatasetClosed
  else (read_1d ds (ds.d_dims.getD 0 0)).map fun buf => (buf, ds.d_dims.getD 0 0)

/-- `HDF5Dataset::write` (`hdf5.cpp` lines 801–805). -/
def write (ds : HDF5Dataset) (array : Nat → Int) (n : Nat) :
    Except String HDF5Dataset :=
  if isClosedDS ds then Except.error msgDatasetClosed
  else hdf5_write ds array 1 [n]

/-- `HDF5Dataset::writeArray` (`hdf5.cpp` lines 951–965): copies the
valarray into a scratch buffer and writes it — note there is no closed-handle
check before `hdf5_write` touches the engine. -/
def writeArray (ds : HDF5Dataset) (array : List Int) : Except String HDF5Dataset :=
  hdf5_write ds (fun i => array.getD i 0) 1 [array.length]

/-- Pointwise store used to model one `buf[pos] = v` / `result(...) = v`
assignment. -/
def updateF (f : Nat → Int) (pos : Nat) (v : Int) : Nat → Int :=
  fun q => if q = pos then v else f q

/-- The unflattening loop of `HDF5Dataset::readCube` (`hdf5.cpp` lines
910–918): `i = 0`, then `for ix { for iy { for iz { result(ix,iy,iz) =
buf[i++] } } }`, starting from the zero-initialized cube store. -/
def readCubeFill (d0 d1 d2 : Nat) (buf : Nat → Int) : (Nat → Int) × Nat :=
  (List.range d0).foldl (fun sx ix =>
    (List.range d1).foldl (fun sy iy =>
      (List.range d2).foldl (fun sz iz =>
        (updateF sz.1 (cubeIndex d0 d1 ix iy iz) (buf sz.2), sz.2 + 1)) sy) sx)
    (fun _ => 0, 0)

/-- `HDF5Dataset::readCube` (`hdf5.cpp` lines 900–922): closed check, rank-3
check, full-extent read, then the unflattening loop. -/
def readCube (ds : HDF5Dataset) : Except String Cube :=
  if isClosedDS ds then Except.error msgDatasetClosed
  else if ds.d_rank ≠ 3 then Except.error msgNotCube
  else
    let g0 := ds.d_dims.getD 0 0
    let g1 := ds.d_dims.getD 1 0
    let g2 := ds.d_dims.getD 2 0
    (readN ds 3 [g0, g1, g2]).map fun buf =>
      ⟨g0, g1, g2, (readCubeFill g0 g1 g2 buf).1⟩

/-- `readCube` followed by `Cube::operator()(x,y,z)` — the observable value
of the returned cube at one coordinate triple. -/
def readCubeAt (ds : HDF5Dataset) (x y z : Nat) : Except String Int :=
  (readCube ds).map fun c => c.cell x y z

/-- The flattening loop of `HDF5Dataset::writeCube` (`hdf5.cpp` lines
929–939): `i = 0`, then `for ix { for iy { for iz { buf[i++] =
cube(ix,iy,iz) } } }` into a fresh buffer. -/
def writeCubeFlatten (c : Cube) : (Nat → Int) × Nat :=
  (List.range c.d0).foldl (fun sx ix =>
    (List.range c.d1).foldl (fun sy iy =>
      (List.range c.d2).foldl (fun sz iz =>
        (updateF sz.1 sz.2 (c.cell ix iy iz), sz.2 + 1)) sy) sx)
    (fun _ => 0, 0)

/-- `HDF5Dataset::writeCube` (`hdf5.cpp` lines 924–949): closed check,
flattening loop, then a full write with the cube's extents as counts. -/
def writeCube (ds : HDF5Dataset) (c : Cube) : Except String HDF5Dataset :=
  if isClosedDS ds then Except.error msgDatasetClosed
  else hdf5_write ds (writeCubeFlatten c).1 3 [c.d0, c.d1, c.d2]

/-! ### Object enumeration (`HDF5Object::getItemNames`) -/

/-- `HDF5Object` as far as enumeration is concerned: the engine identifier
`_id`. -/
structure HDF5Object where
  oid : Int

/-- `HDF5Object::isClosed`: `_id <= 0`. -/
def HDF5Object.isClosed (o : HDF5Object) : Bool :=
  o.oid ≤ 0

/-- The object type reported by `H5Oget_info_by_name` for one child
(`H5O_TYPE_GROUP` / `H5O_TYPE_DATASET` / `H5O_TYPE_NAMED_DATATYPE` /
anything else). -/
inductive ChildTy where
  | group
  | dataset
  | namedType
  | other

/-- `HDF5Object::TYPE_GROUP`.  The C++ mask type is `int`; the masks are
small non-negative constants, so `Nat` with bitwise and is a faithful
model. -/
def TYPE_GROUP : Nat := 0x1

/-- `HDF5Object::TYPE_DATASET`. -/
def TYPE_DATASET : Nat := 0x2

/-- `HDF5Object::TYPE_ATTRIBUTE`. -/
def TYPE_ATTRIBUTE : Nat := 0x4

/-- `HDF5Object::TYPE_ALL`. -/
def TYPE_ALL : Nat := 0xFFFF

/-- `HDF5Object::getItemNames(int)` (`hdf5.cpp` lines 284–301) with the
iteration callback `_hdf5_iteration_func` (lines 246–278).  The engine
outcome is passed in: `none` when `H5Literate` itself fails, otherwise the
children in iteration order, each with the type its `H5Oget_info_by_name`
query reports (`none` when that query fails, which makes the callback return
`-1` and the whole iteration fail).  A closed handle returns the empty list
before the engine is consulted. -/
def getItemNames (obj : HDF5Object) (ty : Nat)
    (engine : Option (List (String × Option ChildTy))) :
    Except String (List String) :=
  if obj.isClosed then Except.ok []
  else
    match engine with
    | none => Except.error msgIterate
    | some children =>
        if children.all (fun c => c.2.isSome) then
          Except.ok (children.filterMap fun c =>
            match c.2 with
            | some ChildTy.group =>
                if ty &&& TYPE_GROUP ≠ 0 then some c.1 else none
            | some ChildTy.dataset =>
                if ty &&& TYPE_DATASET ≠ 0 then some c.1 else none
            | some ChildTy.namedType =>
                if ty &&& TYPE_ATTRIBUTE ≠ 0 then some c.1 else none
            | _ => none)
        else Except.error msgIterate

/-- `HDF5Object::getSubGroups` (`hdf5.cpp` lines 303–305). -/
def getSubGroups (obj : HDF5Object)
    (engine : Option (List (String × Option ChildTy))) :
    Except String (List String) :=
  getItemNames obj TYPE_GROUP engine

/-- `HDF5Object::getSubDatasets` (`hdf5.cpp` lines 307–309). -/
def getSubDatasets (obj : HDF5Object)
    (engine : Option (List (String × Option ChildTy))) :
    Except String (List String) :=
  getItemNames obj TYPE_DATASET engine

/-! ### Attribute array read (`HDF5AttributeManager::readDoubleArray`) -/

/-- `HDF5AttributeManager::readDoubleArray` (`hdf5.cpp` lines 1211–1256).
Engine outcomes passed in: `attrId` from `H5Aopen`, `aspaceId` from
`H5Aget_space`, `npoints` from `H5Sget_simple_extent_npoints`, `readStatus`
from `H5Aread` and `contents` the data a successful read delivers.  The
result triple is (returned array, the `len` out-parameter — `none` when the
function leaves it untouched, the `ok` flag). -/
def readDoubleArray (attrId aspaceId npoints readStatus : Int)
    (contents : Nat → Int) : Option (List Int) × Option Nat × Bool :=
  if attrId < 0 then (none, none, false)
  else if aspaceId < 0 then (none, none, false)
  else if npoints < 0 then (none, none, false)
  else if readStatus = 0 then
    (some ((List.range npoints.toNat).map contents), some npoints.toNat, true)
  else (none, none, false)

end hdf5

/-! ## Theorems -/

namespace numeric

/-- Mixed-radix digit uniqueness: the low digit of `a + d * m` is `a`. -/
theorem digit_mod (a d m : Nat) (h : a < d) : (a + d * m) % d = a := by
  rw [Nat.add_mul_mod_self_left, Nat.mod_eq_of_lt h]

/-- Mixed-radix digit uniqueness: the high part of `a + d * m` is `m`. -/
theorem digit_div (a d m : Nat) (h : a < d) : (a + d * m) / d = m := by
  rw [Nat.add_mul_div_left _ _ (Nat.lt_of_le_of_lt (Nat.zero_le a) h),
    Nat.div_eq_of_lt h, Nat.zero_add]

/-- A bounded digit plus a scaled remainder determine each other. -/
theorem digit_inj (d a a' m m' : Nat) (ha : a < d) (ha' : a' < d)
    (h : a + d * m = a' + d * m') : a = a' ∧ m = m' := by
  have h1 : a = a' := by
    calc a = (a + d * m) % d := (digit_mod a d m ha).symm
    _ = (a' + d * m') % d := by rw [h]
    _ = a' := digit_mod a' d m' ha'
  refine ⟨h1, ?_⟩
  have h2 : d * m = d * m' := by omega
  exact Nat.eq_of_mul_eq_mul_left (Nat.lt_of_le_of_lt (Nat.zero_le a) ha) h2

/-- Box bound for two mixed-radix digits. -/
theorem box2 (y z b c : Nat) (hy : y < b) (hz : z < c) : y * c + z < b * c := by
  calc y * c + z < y * c + c := by omega
  _ = (y + 1) * c := by ring
  _ ≤ b * c := Nat.mul_le_mul_right c hy

/-- Box bound for three mixed-radix digits. -/
theorem box3 (x y z a b c : Nat) (hx : x < a) (hy : y < b) (hz : z < c) :
    (x * b + y) * c + z < a * b * c :=
  box2 (x * b + y) z (a * b) c (box2 x y a b hx hy) hz

/-- The spec's offset map at rank 1 is the raw coordinate. -/
theorem specIndex_one (e0 x : Nat) : specIndex [x] [e0] = x := by
  simp [specIndex]

/-- The spec's offset map at rank 2 agrees with `Matrix::index`. -/
theorem specIndex_two (e0 e1 x y : Nat) :
    specIndex [x, y] [e0, e1] = matrixIndex e0 x y := by
  simp [specIndex, matrixIndex]; ring

/-- The spec's offset map at rank 3 agrees with `Cube::index`. -/
theorem specIndex_three (e0 e1 e2 x y z : Nat) :
    specIndex [x, y, z] [e0, e1, e2] = cubeIndex e0 e1 x y z := by
  simp [specIndex, cubeIndex]; ring

/-- The spec's offset map at rank 4 agrees with `Tesseract::index`. -/
theorem specIndex_four (e0 e1 e2 e3 x1 x2 x3 x4 : Nat) :
    specIndex [x1, x2, x3, x4] [e0, e1, e2, e3] = tessIndex e0 e1 e2 x1 x2 x3 x4 := by
  simp [specIndex, tessIndex]; ring

/-- `Matrix::index` in nested mixed-radix form. -/
theorem matrixIndex_eq (e0 x y : Nat) : matrixIndex e0 x y = x + e0 * y := by
  simp [matrixIndex]; ring

/-- `Cube::index` in nested mixed-radix form. -/
theorem cubeIndex_eq (e0 e1 x y z : Nat) :
    cubeIndex e0 e1 x y z = x + e0 * (y + e1 * z) := by
  simp [cubeIndex]; ring

/-- `Tesseract::index` in nested mixed-radix form. -/
theorem tessIndex_eq (e0 e1 e2 x1 x2 x3 x4 : Nat) :
    tessIndex e0 e1 e2 x1 x2 x3 x4 = x1 + e0 * (x2 + e1 * (x3 + e2 * x4)) := by
  simp [tessIndex]; ring

/-- The spec's offset map stays below the product of the extents. -/
theorem specIndex_lt {cs es : List Nat} (h : List.Forall₂ (· < ·) cs es) :
    specIndex cs es < es.prod := by
  induction h with
  | nil => simp [specIndex]
  | @cons c e cs es hce _ ih =>
      simp only [specIndex, List.prod_cons]
      calc c + e * specIndex cs es < e + e * specIndex cs es := by omega
      _ = e * (specIndex cs es + 1) := by ring
      _ ≤ e * es.prod := Nat.mul_le_mul_left e ih

/-- The spec's offset map is injective over the coordinate box. -/
theorem specIndex_inj {cs cs' es : List Nat}
    (h : List.Forall₂ (· < ·) cs es) (h' : List.Forall₂ (· < ·) cs' es)
    (heq : specIndex cs es = specIndex cs' es) : cs = cs' := by
  induction h generalizing cs' with
  | nil => cases h'; rfl
  | @cons c e cs es hce _ ih =>
      cases h' with
      | cons hce' hall' =>
          simp only [specIndex] at heq
          obtain ⟨h1, h2⟩ := digit_inj e _ _ _ _ hce hce' heq
          rw [h1, ih hall' h2]

/-- Every offset below the product of the extents is attained. -/
theorem specIndex_surj {es : List Nat} :
    ∀ p, p < es.prod → ∃ cs, List.Forall₂ (· < ·) cs es ∧ specIndex cs es = p := by
  induction es with
  | nil =>
      intro p hp
      simp only [List.prod_nil, Nat.lt_one_iff] at hp
      exact ⟨[], List.Forall₂.nil, by simp [specIndex, hp]⟩
  | cons e es ih =>
      intro p hp
      simp only [List.prod_cons] at hp
      have he : 0 < e := by
        rcases Nat.eq_zero_or_pos e with h | h
        · subst h; simp at hp
        · exact h
      have hrest : p / e < es.prod :=
        Nat.div_lt_iff_lt_mul he |>.mpr (by rwa [Nat.mul_comm] at hp)
      obtain ⟨cs, hall, hsp⟩ := ih (p / e) hrest
      refine ⟨p % e :: cs, List.Forall₂.cons (Nat.mod_lt _ he) hall, ?_⟩
      simp only [specIndex, hsp]
      exact Nat.mod_add_div p e

/-- C4: for ranks 1–4 the coordinate-to-offset maps of `numeric.hpp`
(`operator[]`, `Matrix::index`, `Cube::index`, `Tesseract::index`) equal the
spec's `Σ coord[i] * Π(extent[j] for j<i)` formula (first axis fastest), are
injective over the coordinate box, and their image over the box is exactly
`[0, Π extents)`. -/
theorem index_maps_rank1_to_4 (e0 e1 e2 e3 : Nat) :
    (∀ x, arrayIndex x = specIndex [x] [e0])
  ∧ (∀ x x', x < e0 → x' < e0 → arrayIndex x = arrayIndex x' → x = x')
  ∧ (∀ p, (∃ x, x < e0 ∧ arrayIndex x = p) ↔ p < e0)
  ∧ (∀ x y, matrixIndex e0 x y = specIndex [x, y] [e0, e1])
  ∧ (∀ x y x' y', x < e0 → y < e1 → x' < e0 → y' < e1 →
      matrixIndex e0 x y = matrixIndex e0 x' y' → x = x' ∧ y = y')
  ∧ (∀ p, (∃ x y, x < e0 ∧ y < e1 ∧ matrixIndex e0 x y = p) ↔ p < e0 * e1)
  ∧ (∀ x y z, cubeIndex e0 e1 x y z = specIndex [x, y, z] [e0, e1, e2])
  ∧ (∀ x y z x' y' z', x < e0 → y < e1 → z < e2 → x' < e0 → y' < e1 → z' < e2 →
      cubeIndex e0 e1 x y z = cubeIndex e0 e1 x' y' z' → x = x' ∧ y = y' ∧ z = z')
  ∧ (∀ p, (∃ x y z, x < e0 ∧ y < e1 ∧ z < e2 ∧ cubeIndex e0 e1 x y z = p) ↔
      p < e0 * e1 * e2)
  ∧ (∀ x1 x2 x3 x4, tessIndex e0 e1 e2 x1 x2 x3 x4 =
      specIndex [x1, x2, x3, x4] [e0, e1, e2, e3])
  ∧ (∀ x1 x2 x3 x4 y1 y2 y3 y4, x1 < e0 → x2 < e1 → x3 < e2 → x4 < e3 →
      y1 < e0 → y2 < e1 → y3 < e2 → y4 < e3 →
      tessIndex e0 e1 e2 x1 x2 x3 x4 = tessIndex e0 e1 e2 y1 y2 y3 y4 →
      x1 = y1 ∧ x2 = y2 ∧ x3 = y3 ∧ x4 = y4)
  ∧ (∀ p, (∃ x1 x2 x3 x4, x1 < e0 ∧ x2 < e1 ∧ x3 < e2 ∧ x4 < e3 ∧
      tessIndex e0 e1 e2 x1 x2 x3 x4 = p) ↔ p < e0 * e1 * e2 * e3) := by
  have prod2 : ([e0, e1] : List Nat).prod = e0 * e1 := by simp
  have prod3 : ([e0, e1, e2] : List Nat).prod = e0 * e1 * e2 := by
    simp [Nat.mul_assoc]
  have prod4 : ([e0, e1, e2, e3] : List Nat).prod = e0 * e1 * e2 * e3 := by
    simp [Nat.mul_assoc]
  refine ⟨?_, ?_, ?_, ?_, ?_, ?_, ?_, ?_, ?_, ?_, ?_, ?_⟩
  · intro x; simp [arrayIndex, specIndex]
  · intro x x' _ _ h; simpa [arrayIndex] using h
  · intro p
    constructor
    · rintro ⟨x, hx, rfl⟩; exact hx
    · intro hp; exact ⟨p, hp, rfl⟩
  · intro x y; rw [specIndex_two]
  · intro x y x' y' hx hy hx' hy' h
    rw [matrixIndex_eq, matrixIndex_eq] at h
    exact digit_inj e0 _ _ _ _ hx hx' h
  · intro p
    constructor
    · rintro ⟨x, y, hx, hy, rfl⟩
      have h := specIndex_lt
        (List.Forall₂.cons hx (List.Forall₂.cons hy List.Forall₂.nil))
      rw [specIndex_two, prod2] at h
      exact h
    · intro hp
      obtain ⟨cs, hall, hsp⟩ := specIndex_surj p (by rwa [prod2])
      cases hall with
      | cons hx hall' =>
          cases hall' with
          | cons hy hall'' =>
              cases hall''
              rename_i x y
              exact ⟨x, y, hx, hy, by rwa [← specIndex_two]⟩
  · intro x y z; rw [specIndex_three]
  · intro x y z x' y' z' hx hy hz hx' hy' hz' h
    rw [cubeIndex_eq, cubeIndex_eq] at h
    obtain ⟨h1, h2⟩ := digit_inj e0 _ _ _ _ hx hx' h
    obtain ⟨h3, h4⟩ := digit_inj e1 _ _ _ _ hy hy' h2
    exact ⟨h1, h3, h4⟩
  · intro p
    constructor
    · rintro ⟨x, y, z, hx, hy, hz, rfl⟩
      have h := specIndex_lt (List.Forall₂.cons hx
        (List.Forall₂.cons hy (List.Forall₂.cons hz List.Forall₂.nil)))
      rw [specIndex_three, prod3] at h
      exact h
    · intro hp
      obtain ⟨cs, hall, hsp⟩ := specIndex_surj p (by rwa [prod3])
      cases hall with
      | cons hx hall' =>
          cases hall' with
          | cons hy hall'' =>
              cases hall'' with
              | cons hz hall''' =>
                  cases hall'''
                  rename_i x y z
                  exact ⟨x, y, z, hx, hy, hz, by rwa [← specIndex_three]⟩
  · intro x1 x2 x3 x4; rw [specIndex_four]
  · intro x1 x2 x3 x4 y1 y2 y3 y4 h1 h2 h3 h4 g1 g2 g3 g4 h
    rw [tessIndex_eq, tessIndex_eq] at h
    obtain ⟨e1eq, hrest⟩ := digit_inj e0 _ _ _ _ h1 g1 h
    obtain ⟨e2eq, hrest2⟩ := digit_inj e1 _ _ _ _ h2 g2 hrest
    obtain ⟨e3eq, hrest3⟩ := digit_inj e2 _ _ _ _ h3 g3 hrest2
    exact ⟨e1eq, e2eq, e3eq, hrest3⟩
  · intro p
    constructor
    · rintro ⟨x1, x2, x3, x4, h1, h2, h3, h4, rfl⟩
      have h := specIndex_lt (List.Forall₂.cons h1 (List.Forall₂.cons h2
        (List.Forall₂.cons h3 (List.Forall₂.cons h4 List.Forall₂.nil))))
      rw [specIndex_four, prod4] at h
      exact h
    · intro hp
      obtain ⟨cs, hall, hsp⟩ := specIndex_surj p (by rwa [prod4])
      cases hall with
      | cons h1 hall' =>
          cases hall' with
          | cons h2 hall'' =>
              cases hall'' with
              | cons h3 hall''' =>
                  cases hall''' with
                  | cons h4 hall'''' =>
                      cases hall''''
                      rename_i x1 x2 x3 x4
                      exact ⟨x1, x2, x3, x4, h1, h2, h3, h4,
                        by rwa [← specIndex_four]⟩

/-- Witness for C4: the rank-2 injectivity conjunct at extents (2,3) and
coordinates (1,2) = (1,2). -/
theorem index_maps_rank1_to_4_witness : (1 : Nat) = 1 ∧ (2 : Nat) = 2 :=
  (index_maps_rank1_to_4 2 3 4 5).2.2.2.2.1 1 2 1 2 (by decide) (by decide)
    (by decide) (by decide) rfl

/-- Default values of a zero replicate are zero. -/
theorem getD_replicate_zero (k t : Nat) :
    (List.replicate k (0 : Int)).getD t 0 = 0 := by
  rcases Nat.lt_or_ge t k with h | h
  · rw [List.getD_eq_getElem _ _ (by simpa using h)]; simp
  · rw [List.getD_eq_default _ _ (by simpa using h)]

/-- C7: writing element `i` and then resizing the flat `Array` store to a
larger capacity preserves the written value, preserves every element within
the old capacity, and zero-fills every newly added trailing element
(`Array<T>::resize`, `numeric.hpp` lines 45–61). -/
theorem resize_preserves_and_zero_fills (a : List Int) (i : Nat) (v : Int)
    (m : Nat) (hi : i < a.length) (hm : a.length < m) :
    aget (resize (aset a i v) m) i = v
  ∧ (∀ j, j < a.length → aget (resize a m) j = aget a j)
  ∧ (∀ j, a.length ≤ j → j < m → aget (resize (aset a i v) m) j = 0) := by
  have hlen : (aset a i v).length = a.length := by simp [aset]
  have hres : resize (aset a i v) m =
      aset a i v ++ List.replicate (m - a.length) 0 := by
    simp only [resize, hlen]
    rw [if_neg (by omega), if_pos (by omega)]
  have hres2 : resize a m = a ++ List.replicate (m - a.length) 0 := by
    simp only [resize]
    rw [if_neg (by omega), if_pos (by omega)]
  refine ⟨?_, ?_, ?_⟩
  · rw [hres]
    unfold aget
    rw [List.getD_append _ _ _ _ (by rw [hlen]; exact hi)]
    rw [List.getD_eq_getElem _ _ (by rw [hlen]; exact hi)]
    simp [aset]
  · intro j hj
    rw [hres2]
    unfold aget
    exact List.getD_append _ _ _ _ hj
  · intro j hj1 hj2
    rw [hres]
    unfold aget
    rw [List.getD_append_right _ _ _ _ (by rw [hlen]; exact hj1)]
    rw [hlen]
    exact getD_replicate_zero _ _

/-- Witness for C7 at `a = [5, 6]`, `i = 0`, `v = 9`, `m = 4`. -/
theorem resize_preserves_witness : aget (resize (aset [5, 6] 0 9) 4) 0 = 9 :=
  (resize_preserves_and_zero_fills [5, 6] 0 9 4 (by decide) (by decide)).1

end numeric

namespace hdf5

/-- After deleting a list of handles, exactly the listed handles have had
their identifiers zeroed. -/
theorem foldl_deleteObject_hid (l : List Nat) :
    ∀ (s : FileSt) (h : Nat),
      (l.foldl deleteObject s).hid h = if h ∈ l then 0 else s.hid h := by
  induction l with
  | nil => intro s h; simp
  | cons a l ih =>
      intro s h
      simp only [List.foldl_cons, ih, deleteObject]
      by_cases hl : h ∈ l
      · simp [hl]
      · by_cases ha : h = a <;> simp [hl, ha]

/-- C1: `HDF5File::close` destroys every registered handle (each then
reports `isClosed()`), leaves the registry empty, and calling it a second
time changes nothing (the model has no failure path, matching the source,
which ignores the engine close statuses). -/
theorem close_cascades_empties_idempotent (s : FileSt) :
    (∀ k, k ∈ s.objects → isClosedKey (closeFile s) k = true)
  ∧ (closeFile s).objects = []
  ∧ closeFile (closeFile s) = closeFile s := by
  refine ⟨?_, rfl, rfl⟩
  intro k hk
  have h := foldl_deleteObject_hid s.objects s k
  rw [if_pos hk] at h
  simp [isClosedKey, closeFile, h]

/-- A sample file state with three registered handles. -/
def sampleFile : FileSt := ⟨1, [0, 1, 2], some 0, fun _ => 1, 3⟩

/-- Witness for C1 on a file with three live handles. -/
theorem close_cascades_witness : isClosedKey (closeFile sampleFile) 1 = true :=
  (close_cascades_empties_idempotent sampleFile).1 1 (by decide)

/-- A one-character filename. -/
def fname1 : List Char := ['a']

/-- The state `initFile fname1 false 1 1 1` produces. -/
def initSt1 : FileSt := ⟨1, [0], some 0, fun k => if k = 0 then 1 else 0, 1⟩

/-- Counterexample to C2 as stated: immediately after construction — a
reachable state — the registry *does* contain the root group, which the
`HDF5Object` base constructor registered like any other handle (the close
path even relies on this, deleting the root through the registry
iteration). -/
theorem root_group_is_registered :
    initFile fname1 false 1 1 1 = Except.ok initSt1
  ∧ initSt1.root = some 0 ∧ 0 ∈ initSt1.objects :=
  ⟨rfl, rfl, by decide⟩

/-- The root-containment invariant is preserved by every registry step. -/
theorem root_inv_preserved (ops : List FOp) :
    ∀ s : FileSt, s.root = some 0 → 0 ∈ s.objects →
      (ops.foldl applyOp s).root = some 0 ∧ 0 ∈ (ops.foldl applyOp s).objects := by
  induction ops with
  | nil => intro s h1 h2; exact ⟨h1, h2⟩
  | cons op ops ih =>
      intro s h1 h2
      simp only [List.foldl_cons]
      cases op with
      | openObj gid =>
          exact ih _ (by simpa [applyOp] using h1)
            (by simp [applyOp, addObject]; left; exact h2)
      | remove k =>
          refine ih _ (by simpa [applyOp, deleteObject] using h1) ?_
          simp only [applyOp, deleteObject, removeObject]
          split
          · exact h2
          · rename_i hne
            rw [h1] at hne
            exact (List.mem_erase_of_ne fun he => hne (by rw [← he])).mpr h2

/-- C2 amended: the registry contains the root group from construction on
(it is registered by the base-class constructor), and it keeps containing it
across any sequence of child constructions and removals, because
`removeObject` refuses to remove the root and erasing any other handle
leaves the root registered.  Only `close` empties the registry. -/
theorem root_stays_registered (fn : List Char) (ex : Bool)
    (oid cid rgid : Int) (ops : List FOp) (s : FileSt)
    (h : initFile fn ex oid cid rgid = Except.ok s) :
    (ops.foldl applyOp s).root = some 0 ∧ 0 ∈ (ops.foldl applyOp s).objects := by
  have hs : s.root = some 0 ∧ 0 ∈ s.objects := by
    simp only [initFile] at h
    split_ifs at h <;>
      first
        | exact Except.noConfusion h
        | (obtain rfl := Except.ok.inj h; exact ⟨rfl, by simp⟩)
  exact root_inv_preserved ops s hs.1 hs.2

/-- Witness for C2 (amended): a removal aimed at the root leaves it
registered. -/
theorem root_stays_registered_witness :
    (([FOp.remove 0] : List FOp).foldl applyOp initSt1).root = some 0
  ∧ 0 ∈ (([FOp.remove 0] : List FOp).foldl applyOp initSt1).objects :=
  root_stays_registered fname1 false 1 1 1 [FOp.remove 0] initSt1 rfl

/-- Counterexample to C8 as stated: the engine hands back the non-positive
file identifier `0` (`fileExists = false`, so `H5Fcreate` is the call made),
yet `init` succeeds, because the source checks `fid < 0`, not `fid <= 0`. -/
theorem initFile_accepts_zero_identifier :
    isOkE (initFile fname1 false 9 0 1) = true
  ∧ ((if false then (9 : Int) else 0) ≤ 0) :=
  ⟨rfl, by decide⟩

/-- C8 amended: `init` creates the file when it is absent and opens it
otherwise (the engine identifier used is the create result exactly when the
file did not exist), and it fails — with the uniform `HDF5Exception`
channel — exactly when the path is empty, the file identifier returned by
the engine is *strictly negative*, or the eager root-group open returns a
strictly negative identifier.  A zero identifier is accepted. -/
theorem initFile_open_or_create (fn : List Char) (ex : Bool)
    (oid cid rgid : Int) :
    (isOkE (initFile fn ex oid cid rgid) = false ↔
      (fn.length = 0 ∨ (if ex then oid else cid) < 0 ∨ rgid < 0))
  ∧ (∀ s, initFile fn ex oid cid rgid = Except.ok s →
      s.fid = (if ex then oid else cid)) := by
  constructor
  · simp only [initFile]
    split_ifs with h1 h2 h3 <;> simp_all [isOkE]
  · intro s h
    simp only [initFile] at h
    split_ifs at h <;>
      first
        | exact Except.noConfusion h
        | (obtain rfl := Except.ok.inj h; simp_all)

/-- Witness for C8 (amended): on a successful open-of-absent-file the held
identifier is the create result. -/
theorem initFile_open_or_create_witness :
    initSt1.fid = (if false then (1 : Int) else 1) :=
  (initFile_open_or_create fname1 false 1 1 1).2 initSt1 rfl

/-- C10: enumeration on a closed handle returns the empty list without an
error, for every possible engine enumeration outcome — the engine is never
consulted (`HDF5Object::getItemNames` checks `isClosed()` first), and the
`getSubGroups`/`getSubDatasets` wrappers inherit this. -/
theorem closed_enumeration_empty (obj : HDF5Object) (ty : Nat)
    (engine : Option (List (String × Option ChildTy)))
    (h : obj.isClosed = true) :
    getItemNames obj ty engine = Except.ok []
  ∧ getSubGroups obj engine = Except.ok []
  ∧ getSubDatasets obj engine = Except.ok [] := by
  refine ⟨?_, ?_, ?_⟩ <;> simp [getItemNames, getSubGroups, getSubDatasets, h]

/-- Witness for C10: a closed handle with a failing engine enumeration still
yields the empty list. -/
theorem closed_enumeration_empty_witness :
    getItemNames ⟨0⟩ 1 none = Except.ok [] :=
  (closed_enumeration_empty ⟨0⟩ 1 none (by decide)).1

/-- C9: `readDoubleArray` either returns an array sized to the attribute's
element count together with `ok = true` (and sets the length out-parameter),
or returns a null array together with `ok = false` — never a mixed
combination. -/
theorem readDoubleArray_exclusive (attrId aspaceId npoints readStatus : Int)
    (contents : Nat → Int) :
    ((readDoubleArray attrId aspaceId npoints readStatus contents).1 = none ↔
      (readDoubleArray attrId aspaceId npoints readStatus contents).2.2 = false)
  ∧ (∀ l, (readDoubleArray attrId aspaceId npoints readStatus contents).1 = some l →
      l.length = npoints.toNat
      ∧ (readDoubleArray attrId aspaceId npoints readStatus contents).2.2 = true
      ∧ (readDoubleArray attrId aspaceId npoints readStatus contents).2.1 =
          some npoints.toNat) := by
  unfold readDoubleArray
  split_ifs <;> constructor <;> simp_all

/-- Witness for C9 on a successful two-point read. -/
theorem readDoubleArray_exclusive_witness :
    ([5, 5] : List Int).length = (2 : Int).toNat
  ∧ (readDoubleArray 1 1 2 0 fun _ => 5).2.2 = true :=
  ⟨((readDoubleArray_exclusive 1 1 2 0 fun _ => 5).2 [5, 5] (by decide)).1,
   ((readDoubleArray_exclusive 1 1 2 0 fun _ => 5).2 [5, 5] (by decide)).2.1⟩

end hdf5

namespace numeric

/-- Full injectivity of `Cube::index` in the first two (bounded)
coordinates and the third (unbounded) coordinate. -/
theorem cubeIndex_inj_full (d0 d1 x y z x' y' z' : Nat) (hx : x < d0)
    (hx' : x' < d0) (hy : y < d1) (hy' : y' < d1)
    (h : cubeIndex d0 d1 x y z = cubeIndex d0 d1 x' y' z') :
    x = x' ∧ y = y' ∧ z = z' := by
  rw [cubeIndex_eq, cubeIndex_eq] at h
  obtain ⟨h1, h2⟩ := digit_inj d0 _ _ _ _ hx hx' h
  obtain ⟨h3, h4⟩ := digit_inj d1 _ _ _ _ hy hy' h2
  exact ⟨h1, h3, h4⟩

/-- `Cube::index` is injective in the last coordinate. -/
theorem cubeIndex_inj_z (d0 d1 x y z z' : Nat) (hd0 : 0 < d0) (hd1 : 0 < d1)
    (h : cubeIndex d0 d1 x y z = cubeIndex d0 d1 x y z') : z = z' := by
  simp only [cubeIndex] at h
  have h2 : d0 * d1 * z = d0 * d1 * z' := by omega
  exact Nat.eq_of_mul_eq_mul_left (Nat.mul_pos hd0 hd1) h2

/-- Decoding the last coordinate out of a `Cube::index` value. -/
theorem cubeIndex_div (d0 d1 x y z : Nat) (hx : x < d0) (hy : y < d1) :
    cubeIndex d0 d1 x y z / (d0 * d1) = z := by
  have hb : y * d0 + x < d0 * d1 := by
    rw [Nat.mul_comm d0 d1]
    exact box2 y x d1 d0 hy hx
  have he : cubeIndex d0 d1 x y z = (y * d0 + x) + d0 * d1 * z := by
    simp [cubeIndex]; ring
  rw [he, digit_div _ _ _ hb]

/-- Decoding the middle coordinate out of a `Cube::index` value. -/
theorem cubeIndex_div_mod (d0 d1 x y z : Nat) (hx : x < d0) (hy : y < d1) :
    cubeIndex d0 d1 x y z / d0 % d1 = y := by
  rw [cubeIndex_eq, digit_div _ _ _ hx, digit_mod _ _ _ hy]

end numeric

namespace hdf5

/-- Characterization of a counter-threading write loop over `List.range c`:
if each iteration `k` (entered with counter `i₀ + k * B`) advances the
counter by `B`, writes only inside its window `W k` — where it stores
`F k _` — and the windows of distinct iterations are disjoint, then the
final counter is `i₀ + c * B`, every window holds its iteration's values,
and everything outside all windows is untouched. -/
theorem foldl_range_writes
    (step : ((Nat → Int) × Nat) → Nat → ((Nat → Int) × Nat))
    (B i₀ : Nat) (W : Nat → Nat → Prop) (F : Nat → Nat → Int) :
    ∀ (c : Nat) (v : Nat → Int),
      (∀ s k, k < c → s.2 = i₀ + k * B → (step s k).2 = s.2 + B) →
      (∀ s k q, k < c → s.2 = i₀ + k * B → ¬ W k q → (step s k).1 q = s.1 q) →
      (∀ s k q, k < c → s.2 = i₀ + k * B → W k q → (step s k).1 q = F k q) →
      (∀ k k' q, k < k' → k' < c → W k q → ¬ W k' q) →
      ((List.range c).foldl step (v, i₀)).2 = i₀ + c * B
      ∧ (∀ k q, k < c → W k q →
          ((List.range c).foldl step (v, i₀)).1 q = F k q)
      ∧ (∀ q, (∀ k, k < c → ¬ W k q) →
          ((List.range c).foldl step (v, i₀)).1 q = v q) := by
  intro c
  induction c with
  | zero =>
      intro v _ _ _ _
      refine ⟨by simp, ?_, ?_⟩
      · intro k q hk _
        exact absurd hk (Nat.not_lt_zero k)
      · intro q _
        simp
  | succ c ih =>
      intro v hcnt hout hin hdisj
      obtain ⟨ihc, ihw, ihu⟩ := ih v
        (fun s k hk => hcnt s k (Nat.lt_succ_of_lt hk))
        (fun s k q hk => hout s k q (Nat.lt_succ_of_lt hk))
        (fun s k q hk => hin s k q (Nat.lt_succ_of_lt hk))
        (fun k k' q hkk' hk' => hdisj k k' q hkk' (Nat.lt_succ_of_lt hk'))
      rw [List.range_succ, List.foldl_append]
      simp only [List.foldl_cons, List.foldl_nil]
      refine ⟨?_, ?_, ?_⟩
      · rw [hcnt _ c (Nat.lt_succ_self c) ihc, ihc]
        ring
      · intro k q hk hw
        rcases Nat.lt_succ_iff_lt_or_eq.mp hk with hk' | rfl
        · rw [hout _ c q (Nat.lt_succ_self c) ihc
            (hdisj k c q hk' (Nat.lt_succ_self c) hw)]
          exact ihw k q hk' hw
        · exact hin _ k q (Nat.lt_succ_self k) ihc hw
      · intro q hq
        rw [hout _ c q (Nat.lt_succ_self c) ihc (hq c (Nat.lt_succ_self c))]
        exact ihu q (fun k hk => hq k (Nat.lt_succ_of_lt hk))

/-- Innermost `readCube` loop (over `iz`): the counter advances by `d2`,
cell `(ix, iy, iz)` receives buffer element `entry + iz`, everything else is
untouched. -/
theorem readCubeFill_inner (d0 d1 d2 : Nat) (buf : Nat → Int) (ix iy : Nat)
    (hx : ix < d0) (hy : iy < d1) (s : (Nat → Int) × Nat) :
    ((List.range d2).foldl (fun sz iz =>
        (updateF sz.1 (numeric.cubeIndex d0 d1 ix iy iz) (buf sz.2), sz.2 + 1)) s).2
      = s.2 + d2
  ∧ (∀ z, z < d2 →
      ((List.range d2).foldl (fun sz iz =>
        (updateF sz.1 (numeric.cubeIndex d0 d1 ix iy iz) (buf sz.2), sz.2 + 1)) s).1
          (numeric.cubeIndex d0 d1 ix iy z) = buf (s.2 + z))
  ∧ (∀ q, (∀ z, z < d2 → q ≠ numeric.cubeIndex d0 d1 ix iy z) →
      ((List.range d2).foldl (fun sz iz =>
        (updateF sz.1 (numeric.cubeIndex d0 d1 ix iy iz) (buf sz.2), sz.2 + 1)) s).1 q
        = s.1 q) := by
  have hd0 : 0 < d0 := Nat.lt_of_le_of_lt (Nat.zero_le ix) hx
  have hd1 : 0 < d1 := Nat.lt_of_le_of_lt (Nat.zero_le iy) hy
  have g := foldl_range_writes
    (fun sz iz => (updateF sz.1 (numeric.cubeIndex d0 d1 ix iy iz) (buf sz.2), sz.2 + 1))
    1 s.2
    (fun iz q => q = numeric.cubeIndex d0 d1 ix iy iz)
    (fun iz _ => buf (s.2 + iz))
    d2 s.1
    (fun t k _ _ => rfl)
    (fun t k q _ _ hW => by simp [updateF, hW])
    (fun t k q _ ht hW => by simp [updateF, hW, ht])
    (fun k k' q hkk' _ hW hW' =>
      absurd (numeric.cubeIndex_inj_z d0 d1 ix iy k k' hd0 hd1 (hW.symm.trans hW'))
        (Nat.ne_of_lt hkk'))
  refine ⟨by simpa using g.1, ?_, ?_⟩
  · intro z hz
    exact g.2.1 z _ hz rfl
  · intro q hq
    exact g.2.2 q hq

/-- Middle `readCube` loop (over `iy`): the counter advances by `d1 * d2`,
cell `(ix, iy, iz)` receives buffer element `entry + iy * d2 + iz`. -/
theorem readCubeFill_mid (d0 d1 d2 : Nat) (buf : Nat → Int) (ix : Nat)
    (hx : ix < d0) (s : (Nat → Int) × Nat) :
    ((List.range d1).foldl (fun sy iy =>
        (List.range d2).foldl (fun sz iz =>
          (updateF sz.1 (numeric.cubeIndex d0 d1 ix iy iz) (buf sz.2), sz.2 + 1)) sy) s).2
      = s.2 + d1 * d2
  ∧ (∀ y z, y < d1 → z < d2 →
      ((List.range d1).foldl (fun sy iy =>
        (List.range d2).foldl (fun sz iz =>
          (updateF sz.1 (numeric.cubeIndex d0 d1 ix iy iz) (buf sz.2), sz.2 + 1)) sy) s).1
            (numeric.cubeIndex d0 d1 ix y z) = buf (s.2 + y * d2 + z))
  ∧ (∀ q, (∀ y z, y < d1 → z < d2 → q ≠ numeric.cubeIndex d0 d1 ix y z) →
      ((List.range d1).foldl (fun sy iy =>
        (List.range d2).foldl (fun sz iz =>
          (updateF sz.1 (numeric.cubeIndex d0 d1 ix iy iz) (buf sz.2), sz.2 + 1)) sy) s).1 q
        = s.1 q) := by
  have g := foldl_range_writes
    (fun sy iy => (List.range d2).foldl (fun sz iz =>
        (updateF sz.1 (numeric.cubeIndex d0 d1 ix iy iz) (buf sz.2), sz.2 + 1)) sy)
    d2 s.2
    (fun iy q => ∃ z, z < d2 ∧ q = numeric.cubeIndex d0 d1 ix iy z)
    (fun iy q => buf (s.2 + iy * d2 + q / (d0 * d1)))
    d1 s.1
    (fun t k hk _ => (readCubeFill_inner d0 d1 d2 buf ix k hx hk t).1)
    (fun t k q hk _ hW =>
      (readCubeFill_inner d0 d1 d2 buf ix k hx hk t).2.2 q
        (fun z hz hq => hW ⟨z, hz, hq⟩))
    (fun t k q hk ht hW => by
      obtain ⟨z, hz, rfl⟩ := hW
      dsimp only
      rw [(readCubeFill_inner d0 d1 d2 buf ix k hx hk t).2.1 z hz, ht,
        numeric.cubeIndex_div d0 d1 ix k z hx hk])
    (fun k k' q hkk' hk' hW hW' => by
      obtain ⟨z, hz, hq⟩ := hW
      obtain ⟨z', hz', hq'⟩ := hW'
      have h := hq.symm.trans hq'
      have hkx : k < d1 := Nat.lt_trans hkk' hk'
      obtain ⟨_, hk2, _⟩ := numeric.cubeIndex_inj_full d0 d1 ix k z ix k' z'
        hx hx hkx hk' h
      exact absurd hk2 (Nat.ne_of_lt hkk'))
  refine ⟨g.1, ?_, ?_⟩
  · intro y z hy hz
    have h := g.2.1 y (numeric.cubeIndex d0 d1 ix y z) hy ⟨z, hz, rfl⟩
    dsimp only at h
    rwa [numeric.cubeIndex_div d0 d1 ix y z hx hy] at h
  · intro q hq
    exact g.2.2 q (fun k hk hW => by
      obtain ⟨z, hz, hqz⟩ := hW
      exact hq k z hk hz hqz)

/-- Position formula for the `readCube` unflattening loop: cube cell
`(x, y, z)` receives buffer element `(x * d1 + y) * d2 + z` — the *last*
axis varies fastest along the transfer buffer. -/
theorem readCubeFill_at (d0 d1 d2 : Nat) (buf : Nat → Int) (x y z : Nat)
    (hx : x < d0) (hy : y < d1) (hz : z < d2) :
    (readCubeFill d0 d1 d2 buf).1 (numeric.cubeIndex d0 d1 x y z) =
      buf ((x * d1 + y) * d2 + z) := by
  have g := foldl_range_writes
    (fun sx ix => (List.range d1).foldl (fun sy iy =>
        (List.range d2).foldl (fun sz iz =>
          (updateF sz.1 (numeric.cubeIndex d0 d1 ix iy iz) (buf sz.2), sz.2 + 1)) sy) sx)
    (d1 * d2) 0
    (fun ix q => ∃ y z, y < d1 ∧ z < d2 ∧ q = numeric.cubeIndex d0 d1 ix y z)
    (fun ix q => buf (ix * (d1 * d2) + (q / d0 % d1) * d2 + q / (d0 * d1)))
    d0 (fun _ => 0)
    (fun t k hk _ => (readCubeFill_mid d0 d1 d2 buf k hk t).1)
    (fun t k q hk _ hW =>
      (readCubeFill_mid d0 d1 d2 buf k hk t).2.2 q
        (fun y z hy hz hq => hW ⟨y, z, hy, hz, hq⟩))
    (fun t k q hk ht hW => by
      obtain ⟨y, z, hy, hz, rfl⟩ := hW
      dsimp only
      rw [(readCubeFill_mid d0 d1 d2 buf k hk t).2.1 y z hy hz, ht,
        numeric.cubeIndex_div d0 d1 k y z hk hy,
        numeric.cubeIndex_div_mod d0 d1 k y z hk hy]
      congr 1
      omega)
    (fun k k' q hkk' hk' hW hW' => by
      obtain ⟨y, z, hy, hz, hq⟩ := hW
      obtain ⟨y', z', hy', hz', hq'⟩ := hW'
      have h := hq.symm.trans hq'
      have hkx : k < d0 := Nat.lt_trans hkk' hk'
      obtain ⟨hk2, _, _⟩ := numeric.cubeIndex_inj_full d0 d1 k y z k' y' z'
        hkx hk' hy hy' h
      exact absurd hk2 (Nat.ne_of_lt hkk'))
  have h := g.2.1 x (numeric.cubeIndex d0 d1 x y z) hx ⟨y, z, hy, hz, rfl⟩
  dsimp only at h
  rw [numeric.cubeIndex_div_mod d0 d1 x y z hx hy,
    numeric.cubeIndex_div d0 d1 x y z hx hy] at h
  have harg : x * (d1 * d2) + y * d2 + z = (x * d1 + y) * d2 + z := by ring
  rw [harg] at h
  exact h

end hdf5

namespace hdf5

open numeric

/-- Innermost `writeCube` loop (over `iz`): buffer slot `entry + iz`
receives cube cell `(ix, iy, iz)`. -/
theorem writeCubeFlatten_inner (c : Cube) (ix iy : Nat) (s : (Nat → Int) × Nat) :
    ((List.range c.d2).foldl (fun sz iz =>
        (updateF sz.1 sz.2 (c.cell ix iy iz), sz.2 + 1)) s).2 = s.2 + c.d2
  ∧ (∀ z, z < c.d2 →
      ((List.range c.d2).foldl (fun sz iz =>
        (updateF sz.1 sz.2 (c.cell ix iy iz), sz.2 + 1)) s).1 (s.2 + z) =
        c.cell ix iy z)
  ∧ (∀ q, (∀ z, z < c.d2 → q ≠ s.2 + z) →
      ((List.range c.d2).foldl (fun sz iz =>
        (updateF sz.1 sz.2 (c.cell ix iy iz), sz.2 + 1)) s).1 q = s.1 q) := by
  have g := foldl_range_writes
    (fun sz iz => (updateF sz.1 sz.2 (c.cell ix iy iz), sz.2 + 1))
    1 s.2
    (fun iz q => q = s.2 + iz)
    (fun iz _ => c.cell ix iy iz)
    c.d2 s.1
    (fun t k _ _ => rfl)
    (fun t k q _ ht hW => by simp [updateF, ht, hW])
    (fun t k q _ ht hW => by simp [updateF, ht, hW])
    (fun k k' q hkk' _ hW hW' => by omega)
  refine ⟨by simpa using g.1, ?_, ?_⟩
  · intro z hz
    exact g.2.1 z _ hz rfl
  · intro q hq
    exact g.2.2 q hq

/-- Middle `writeCube` loop (over `iy`): buffer slot
`entry + iy * d2 + iz` receives cube cell `(ix, iy, iz)`. -/
theorem writeCubeFlatten_mid (c : Cube) (ix : Nat) (s : (Nat → Int) × Nat) :
    ((List.range c.d1).foldl (fun sy iy =>
        (List.range c.d2).foldl (fun sz iz =>
          (updateF sz.1 sz.2 (c.cell ix iy iz), sz.2 + 1)) sy) s).2
      = s.2 + c.d1 * c.d2
  ∧ (∀ y z, y < c.d1 → z < c.d2 →
      ((List.range c.d1).foldl (fun sy iy =>
        (List.range c.d2).foldl (fun sz iz =>
          (updateF sz.1 sz.2 (c.cell ix iy iz), sz.2 + 1)) sy) s).1
            (s.2 + y * c.d2 + z) = c.cell ix y z)
  ∧ (∀ q, (∀ y z, y < c.d1 → z < c.d2 → q ≠ s.2 + y * c.d2 + z) →
      ((List.range c.d1).foldl (fun sy iy =>
        (List.range c.d2).foldl (fun sz iz =>
          (updateF sz.1 sz.2 (c.cell ix iy iz), sz.2 + 1)) sy) s).1 q = s.1 q) := by
  have g := foldl_range_writes
    (fun sy iy => (List.range c.d2).foldl (fun sz iz =>
        (updateF sz.1 sz.2 (c.cell ix iy iz), sz.2 + 1)) sy)
    c.d2 s.2
    (fun iy q => ∃ z, z < c.d2 ∧ q = s.2 + iy * c.d2 + z)
    (fun iy q => c.cell ix iy (q - (s.2 + iy * c.d2)))
    c.d1 s.1
    (fun t k _ _ => (writeCubeFlatten_inner c ix k t).1)
    (fun t k q _ ht hW =>
      (writeCubeFlatten_inner c ix k t).2.2 q
        (fun z hz hq => hW ⟨z, hz, by rw [hq, ht]⟩))
    (fun t k q _ ht hW => by
      obtain ⟨z, hz, rfl⟩ := hW
      dsimp only
      have harg : s.2 + k * c.d2 + z = t.2 + z := by omega
      rw [harg, (writeCubeFlatten_inner c ix k t).2.1 z hz]
      congr 1
      omega)
    (fun k k' q hkk' hk' hW hW' => by
      obtain ⟨z, hz, hq⟩ := hW
      obtain ⟨z', hz', hq'⟩ := hW'
      have hmul : k * c.d2 + c.d2 ≤ k' * c.d2 := by
        have h := Nat.mul_le_mul_right c.d2 hkk'
        rw [Nat.succ_mul] at h
        exact h
      omega)
  refine ⟨g.1, ?_, ?_⟩
  · intro y z hy hz
    have h := g.2.1 y (s.2 + y * c.d2 + z) hy ⟨z, hz, rfl⟩
    dsimp only at h
    rw [h]
    congr 1
    omega
  · intro q hq
    exact g.2.2 q (fun k hk hW => by
      obtain ⟨z, hz, hqz⟩ := hW
      exact hq k z hk hz hqz)

/-- Position formula for the `writeCube` flattening loop: buffer slot
`(x * d1 + y) * d2 + z` receives cube cell `(x, y, z)` — again the *last*
axis varies fastest along the transfer buffer. -/
theorem writeCubeFlatten_at (c : Cube) (x y z : Nat)
    (hx : x < c.d0) (hy : y < c.d1) (hz : z < c.d2) :
    (writeCubeFlatten c).1 ((x * c.d1 + y) * c.d2 + z) = c.cell x y z := by
  have g := foldl_range_writes
    (fun sx ix => (List.range c.d1).foldl (fun sy iy =>
        (List.range c.d2).foldl (fun sz iz =>
          (updateF sz.1 sz.2 (c.cell ix iy iz), sz.2 + 1)) sy) sx)
    (c.d1 * c.d2) 0
    (fun ix q => ∃ y z, y < c.d1 ∧ z < c.d2 ∧ q = ix * (c.d1 * c.d2) + y * c.d2 + z)
    (fun ix q => c.cell ix ((q - ix * (c.d1 * c.d2)) / c.d2)
      ((q - ix * (c.d1 * c.d2)) % c.d2))
    c.d0 (fun _ => 0)
    (fun t k _ _ => (writeCubeFlatten_mid c k t).1)
    (fun t k q _ ht hW =>
      (writeCubeFlatten_mid c k t).2.2 q
        (fun y z hy hz hq => hW ⟨y, z, hy, hz, by rw [hq, ht]; omega⟩))
    (fun t k q _ ht hW => by
      obtain ⟨yy, zz, hyy, hzz, rfl⟩ := hW
      dsimp only
      have harg : k * (c.d1 * c.d2) + yy * c.d2 + zz = t.2 + yy * c.d2 + zz := by
        omega
      rw [harg, (writeCubeFlatten_mid c k t).2.1 yy zz hyy hzz]
      have e1 : t.2 + yy * c.d2 + zz - k * (c.d1 * c.d2) =
          yy * c.d2 + zz := by omega
      have e2 : yy * c.d2 + zz = zz + c.d2 * yy := by ring
      rw [e1, e2, numeric.digit_div zz c.d2 yy hzz, numeric.digit_mod zz c.d2 yy hzz]
    )
    (fun k k' q hkk' hk' hW hW' => by
      obtain ⟨yy, zz, hyy, hzz, hq⟩ := hW
      obtain ⟨yy', zz', hyy', hzz', hq'⟩ := hW'
      have hyz : yy * c.d2 + zz < c.d1 * c.d2 := numeric.box2 yy zz c.d1 c.d2 hyy hzz
      have hyz' : yy' * c.d2 + zz' < c.d1 * c.d2 :=
        numeric.box2 yy' zz' c.d1 c.d2 hyy' hzz'
      have hmul : k * (c.d1 * c.d2) + c.d1 * c.d2 ≤ k' * (c.d1 * c.d2) := by
        have h := Nat.mul_le_mul_right (c.d1 * c.d2) hkk'
        rw [Nat.succ_mul] at h
        exact h
      omega)
  have hq0 : (x * c.d1 + y) * c.d2 + z = x * (c.d1 * c.d2) + y * c.d2 + z := by
    ring
  have h := g.2.1 x ((x * c.d1 + y) * c.d2 + z) hx ⟨y, z, hy, hz, hq0⟩
  dsimp only at h
  rw [hq0] at h ⊢
  have e1 : x * (c.d1 * c.d2) + y * c.d2 + z - x * (c.d1 * c.d2) =
      y * c.d2 + z := by omega
  have e2 : y * c.d2 + z = z + c.d2 * y := by ring
  rw [e1, e2, numeric.digit_div z c.d2 y hz, numeric.digit_mod z c.d2 y hz] at h
  exact h

end hdf5

namespace hdf5

open numeric

/-- A closed dataset handle (identifier `0`) over a rank-1 extent. -/
def closedDS : HDF5Dataset := ⟨0, 1, [3], fun _ => 0⟩

/-- Counterexample to C3 as stated: `writeArray` on a closed dataset does
*not* fail with the ClosedObject error ("Dataset closed") — it has no
closed-handle check and reaches the engine, whose dataspace query on the
invalid identifier fails, so the error is the engine-failure message. -/
theorem writeArray_missing_closed_check :
    writeArray closedDS [] = Except.error msgGetSpace
  ∧ msgGetSpace ≠ msgDatasetClosed :=
  ⟨rfl, by decide⟩

/-- C3 amended: on a dataset whose identifier is `≤ 0`, every read
operation (`read_1d`, `read`, `read_2d`, `operator()`, `read(double**)`,
`readCube`) and the write operations `write` and `writeCube` fail with the
ClosedObject error ("Dataset closed") before touching the engine;
`writeArray` alone lacks the closed check and instead fails with the
engine-level dataspace error — still performing no transfer. -/
theorem closed_dataset_ops (ds : HDF5Dataset) (n : Nat) (dims : List Nat)
    (x y : Nat) (arr : Nat → Int) (la : List Int) (c : Cube)
    (h : ds.did ≤ 0) :
    read_1d ds n = Except.error msgDatasetClosed
  ∧ readN ds n dims = Except.error msgDatasetClosed
  ∧ read_2d ds x y = Except.error msgDatasetClosed
  ∧ callOp ds x y = Except.error msgDatasetClosed
  ∧ readAll ds = Except.error msgDatasetClosed
  ∧ readCube ds = Except.error msgDatasetClosed
  ∧ write ds arr n = Except.error msgDatasetClosed
  ∧ writeCube ds c = Except.error msgDatasetClosed
  ∧ writeArray ds la = Except.error msgGetSpace := by
  have hcl : isClosedDS ds = true := by simp [isClosedDS, h]
  refine ⟨?_, ?_, ?_, ?_, ?_, ?_, ?_, ?_, ?_⟩ <;>
    simp [read_1d, readN, read_2d, callOp, readAll, readCube, write,
      writeCube, writeArray, hdf5_write, hcl, h]

/-- Witness for C3 (amended) on a concrete closed dataset. -/
theorem closed_dataset_ops_witness :
    read_1d closedDS 3 = Except.error msgDatasetClosed :=
  (closed_dataset_ops closedDS 3 [] 0 0 (fun _ => 0) [] ⟨0, 0, 0, fun _ => 0⟩
    (by decide)).1

/-- An open 2×3 (rank-2) dataset whose on-disk elements equal their flat
position. -/
def ds2 : HDF5Dataset := ⟨1, 2, [2, 3], fun q => q⟩

/-- C6: `read_2d(x, y)` (and `operator()(x, y)`, which delegates to it)
reads the single on-disk element at file offset `(row = y, col = x)` — the
coordinates are transposed relative to the raw dimension order, so the
element delivered is flat position `y * D1 + x` of a `[D0, D1]` dataset. -/
theorem read_2d_transposed (ds : HDF5Dataset) (D0 D1 x y : Nat)
    (hopen : 0 < ds.did) (hdims : ds.d_dims = [D0, D1])
    (hy : y < D0) (hx : x < D1) :
    read_2d ds x y = Except.ok (ds.flat (y * D1 + x))
  ∧ (∀ a b, callOp ds a b = read_2d ds a b) := by
  have hne : ¬ ds.did ≤ 0 := by omega
  constructor
  · simp only [read_2d, isClosedDS]
    rw [if_neg (by simp [hne])]
    simp only [hdf5_read]
    rw [if_neg hne, if_pos ?cond]
    case cond =>
      refine ⟨by simp [hdims], by simp, by simp, ?_⟩
      simp [inBounds, hdims]
      omega
    simp only [Except.map]
    simp [cCoords, rowMajor, hdims]
  · intro a b
    rfl

/-- Witness for C6: reading `(x, y) = (1, 0)` of the 2×3 dataset delivers
flat element `0 * 3 + 1`. -/
theorem read_2d_transposed_witness :
    read_2d ds2 1 0 = Except.ok (ds2.flat (0 * 3 + 1)) :=
  (read_2d_transposed ds2 2 3 1 0 (by decide) rfl (by decide) (by decide)).1

/-- An open 2×2×2 (rank-3) dataset whose on-disk elements equal their flat
position. -/
def ds3 : HDF5Dataset := ⟨1, 3, [2, 2, 2], fun q => q⟩

/-- Counterexample to C5 as stated: were the transfer buffer ordered with
axis 0 fastest (`x = p mod d0`), buffer position `p = 1` of the 2×2×2
dataset would land in cube cell `(1, 0, 0)`, i.e. `readCube` would put
on-disk element `1` there; instead the loop stores element
`(1*2+0)*2+0 = 4` there, because the *last* axis varies fastest. -/
theorem readCube_not_axis0_fastest :
    readCubeAt ds3 1 0 0 = Except.ok 4
  ∧ ds3.flat 1 = 1
  ∧ ((4 : Int) ≠ 1) :=
  ⟨rfl, rfl, by decide⟩

/-- C5 amended: `readCube`/`writeCube` flatten and unflatten the rank-3
container in *last-axis-fastest* (C / row-major) order, matching the
engine's on-disk linearization rather than the Strided Buffer's
first-axis-fastest convention: cube cell `(x, y, z)` corresponds to flat
transfer-buffer (and on-disk) position `(x * d1 + y) * d2 + z`, so `z` — not
`x` — varies fastest along the buffer. -/
theorem cube_rw_last_axis_fastest (ds : HDF5Dataset) (d0 d1 d2 : Nat)
    (hopen : 0 < ds.did) (hrank : ds.d_rank = 3)
    (hdims : ds.d_dims = [d0, d1, d2])
    (x y z : Nat) (hx : x < d0) (hy : y < d1) (hz : z < d2) :
    readCubeAt ds x y z = Except.ok (ds.flat ((x * d1 + y) * d2 + z))
  ∧ (∀ c : Cube, c.d0 = d0 → c.d1 = d1 → c.d2 = d2 →
      (writeCube ds c).map (fun t => t.flat ((x * d1 + y) * d2 + z)) =
        Except.ok (c.cell x y z)) := by
  have hne : ¬ ds.did ≤ 0 := by omega
  have hcl : isClosedDS ds = false := by simp [isClosedDS]; omega
  constructor
  · simp only [readCubeAt, readCube, readN, hdf5_read, hcl, hrank, hdims]
    simp [Except.map, Cube.cell, hne]
    exact readCubeFill_at d0 d1 d2 _ x y z hx hy hz
  · intro c hc0 hc1 hc2
    subst hc0; subst hc1; subst hc2
    simp only [writeCube, hdf5_write, hcl, hdims]
    simp [Except.map, hne]
    rw [if_pos ?pos]
    case pos =>
      have hb := numeric.box3 x y z c.d0 c.d1 c.d2 hx hy hz
      simpa [Nat.mul_assoc] using hb
    exact writeCubeFlatten_at c x y z hx hy hz

/-- An open 1×1×1 dataset holding the single value 7. -/
def ds111 : HDF5Dataset := ⟨1, 3, [1, 1, 1], fun _ => 7⟩

/-- Witness for C5 (amended) on the 1×1×1 dataset. -/
theorem cube_rw_witness :
    readCubeAt ds111 0 0 0 = Except.ok (ds111.flat ((0 * 1 + 0) * 1 + 0)) :=
  (cube_rw_last_axis_fastest ds111 1 1 1 (by decide) rfl rfl 0 0 0
    (by decide) (by decide) (by decide)).1

end hdf5
